import Mathlib

set_option maxRecDepth 8000

/-!
Verification of the procedural audio generators in
`scripts/prepare_piano_assets.py`:

* `generate_ir`       — impulse-response synthesizer (stereo noise tail
                        with early reflections, exponential decay,
                        high-frequency damping and 10 ms edge fades);
* `generate_placeholder_note` — additive piano placeholder synthesizer;
* `write_wav_stereo` / `write_wav_mono` — 16-bit PCM encoding.

Modelling conventions:

* Python floats are modelled by exact arithmetic: sample values by `ℝ`,
  durations and preset parameters by `ℚ`.  Every integer index computed
  by the program (`int(sr*seconds)`, `int(sr*(delay_ms/1000.0))`,
  `int(sr*0.01)`, `int(sr*0.02)`, …) was checked to evaluate, under IEEE
  double arithmetic at the program's actual argument values, to the same
  integer as the exact rational computation used here.
* `int(x)` (truncation toward zero) is `pytrunc` on `ℚ` and `rtrunc` on `ℝ`.
* Python's `random.Random(seed).random()` stream is an uninterpreted
  parameter `stream : ℤ → ℕ → ℝ` (seed ↦ successive draws); `hash` on
  strings is an uninterpreted parameter `pyhash : String → ℤ` (it varies
  with the interpreter's hash randomization).
* A Python list of floats is a `List ℝ`; the statement `l[i] op= v` is a
  point update, and a loop of such updates is `applyOps`.
* A raised `IndexError` (no value returned) is modelled by `Option.none`,
  with the guard placed exactly at the condition under which the
  program's loop would index past the buffer.
-/

/-- `int(q)` for a Python float modelled as a rational: truncation toward 0. -/
def pytrunc (q : ℚ) : ℤ := if 0 ≤ q then ⌊q⌋ else ⌈q⌉

/-- `int(y)` for a Python float modelled as a real: truncation toward 0. -/
noncomputable def rtrunc (y : ℝ) : ℤ := if 0 ≤ y then ⌊y⌋ else ⌈y⌉

/-- A sequence of in-place point updates `l[i] = op l[i] v`, applied left to
right; the shape of every mutation loop in the script. -/
def applyOps (op : ℝ → ℝ → ℝ) (ops : List (ℕ × ℝ)) (l : List ℝ) : List ℝ :=
  ops.foldl (fun acc p => acc.set p.1 (op (acc.getD p.1 0) p.2)) l

/-- `l[i] += v` update. -/
def addOp (a b : ℝ) : ℝ := a + b

/-- `l[i] *= v` update. -/
def mulOp (a b : ℝ) : ℝ := a * b

/-! ## Impulse-response synthesizer (`generate_ir`) -/

/-- One entry of the `presets` dict in `generate_ir`. -/
structure IRPreset where
  decay : ℚ
  seconds : ℚ
  hfDecay : ℚ
  early : List (ℕ × ℚ)
  deriving DecidableEq

def studioPreset : IRPreset := ⟨9/10, 9/10, 7/10, [(6, 6/10), (11, 4/10)]⟩

def mediumRoomPreset : IRPreset :=
  ⟨12/10, 15/10, 6/10, [(7, 7/10), (13, 5/10), (23, 35/100)]⟩

def hallPreset : IRPreset :=
  ⟨18/10, 26/10, 55/100, [(9, 8/10), (17, 6/10), (31, 45/100), (47, 3/10)]⟩

def cathedralPreset : IRPreset :=
  ⟨25/10, 42/10, 5/10, [(12, 9/10), (23, 7/10), (41, 55/100), (73, 35/100), (97, 25/100)]⟩

def platePreset : IRPreset :=
  ⟨16/10, 18/10, 75/100, [(5, 95/100), (11, 75/100), (19, 55/100), (29, 35/100)]⟩

/-- `presets.get(name, presets['medium-room'])`. -/
def pyPresetsGet (name : String) : IRPreset :=
  if name = "studio" then studioPreset
  else if name = "medium-room" then mediumRoomPreset
  else if name = "hall" then hallPreset
  else if name = "cathedral" then cathedralPreset
  else if name = "plate" then platePreset
  else mediumRoomPreset

/-- The five keys of the `presets` dict. -/
def fiveNames : List String := ["studio", "medium-room", "hall", "cathedral", "plate"]

/-- `N = int(sr * p['seconds'])` with `sr = 44100`. -/
def irLen (p : IRPreset) : ℕ := (pytrunc (44100 * p.seconds)).toNat

/-- `off = int(sr * (delay_ms/1000.0))`. -/
def erOff (delayMs : ℕ) : ℕ := (pytrunc (44100 * ((delayMs : ℚ) / 1000))).toNat

/-- The `nl[off] += level` updates of the early-reflection loop
(each guarded by `off < N`). -/
def erOpsL (p : IRPreset) : List (ℕ × ℝ) :=
  (p.early.filter (fun pd => erOff pd.1 < irLen p)).map
    (fun pd => (erOff pd.1, (pd.2 : ℝ)))

/-- The `nr[max(0, off-1)] += level*0.98` updates of the early-reflection
loop (`ℕ` subtraction is exactly `max(0, off-1)`). -/
def erOpsR (p : IRPreset) : List (ℕ × ℝ) :=
  (p.early.filter (fun pd => erOff pd.1 < irLen p)).map
    (fun pd => (erOff pd.1 - 1, (pd.2 : ℝ) * 0.98))

/-- Left channel after the early-reflection loop (`nl` starts as `[0.0]*N`). -/
def erBufL (p : IRPreset) : List ℝ :=
  applyOps addOp (erOpsL p) (List.replicate (irLen p) 0)

/-- Right channel after the early-reflection loop. -/
def erBufR (p : IRPreset) : List ℝ :=
  applyOps addOp (erOpsR p) (List.replicate (irLen p) 0)

/-- The smoothed noise state `valL` after the draw of step `i`: the code runs
`valL = (valL + 0.05*n)/1.05` from `valL = 0.0`, where `n = rnd.random()*2-1`
and the left channel consumes the even-position draws of the stream. -/
noncomputable def valL (noise : ℕ → ℝ) : ℕ → ℝ
  | 0 => (0 + 0.05 * (noise 0 * 2 - 1)) / 1.05
  | i + 1 => (valL noise i + 0.05 * (noise (2 * (i + 1)) * 2 - 1)) / 1.05

/-- The smoothed noise state `valR` after the draw of step `i`; the right
channel consumes the odd-position draws of the stream. -/
noncomputable def valR (noise : ℕ → ℝ) : ℕ → ℝ
  | 0 => (0 + 0.05 * (noise 1 * 2 - 1)) / 1.05
  | i + 1 => (valR noise i + 0.05 * (noise (2 * (i + 1) + 1) * 2 - 1)) / 1.05

/-- The late-tail addend for the left channel at sample `i`:
`valL * e * hf_env * 0.6` with `e = exp(-i/(decay*sr))` and
`hf_env = 1 - hf*(i/N)`. -/
noncomputable def tailValL (noise : ℕ → ℝ) (p : IRPreset) (i : ℕ) : ℝ :=
  valL noise i * Real.exp (-(i : ℝ) / ((p.decay : ℝ) * 44100)) *
    (1 - (p.hfDecay : ℝ) * ((i : ℝ) / (irLen p : ℝ))) * 0.6

/-- The late-tail addend for the right channel at sample `i`. -/
noncomputable def tailValR (noise : ℕ → ℝ) (p : IRPreset) (i : ℕ) : ℝ :=
  valR noise i * Real.exp (-(i : ℝ) / ((p.decay : ℝ) * 44100)) *
    (1 - (p.hfDecay : ℝ) * ((i : ℝ) / (irLen p : ℝ))) * 0.6

/-- The `nl[i] += valL * e * hf_env * 0.6` updates of the tail loop. -/
noncomputable def tailOpsL (noise : ℕ → ℝ) (p : IRPreset) : List (ℕ × ℝ) :=
  (List.range (irLen p)).map (fun i => (i, tailValL noise p i))

/-- The `nr[i] += valR * e * hf_env * 0.6` updates of the tail loop. -/
noncomputable def tailOpsR (noise : ℕ → ℝ) (p : IRPreset) : List (ℕ × ℝ) :=
  (List.range (irLen p)).map (fun i => (i, tailValR noise p i))

/-- Left channel after early reflections and the late tail. -/
noncomputable def preFadeL (noise : ℕ → ℝ) (p : IRPreset) : List ℝ :=
  applyOps addOp (tailOpsL noise p) (erBufL p)

/-- Right channel after early reflections and the late tail. -/
noncomputable def preFadeR (noise : ℕ → ℝ) (p : IRPreset) : List ℝ :=
  applyOps addOp (tailOpsR noise p) (erBufR p)

/-- The per-channel updates of the final fade loop:
`for i in range(int(sr*0.01)): k = i/(sr*0.01); ch[i] *= k; ch[-i-1] *= k`
(`int(sr*0.01) = 441` and `sr*0.01 = 441.0` under double arithmetic). -/
noncomputable def fadeOpsIR (N : ℕ) : List (ℕ × ℝ) :=
  (List.range 441).flatMap (fun i => [(i, (i : ℝ) / 441), (N - 1 - i, (i : ℝ) / 441)])

/-- Finished left IR channel. -/
noncomputable def irChannelL (noise : ℕ → ℝ) (p : IRPreset) : List ℝ :=
  applyOps mulOp (fadeOpsIR (irLen p)) (preFadeL noise p)

/-- Finished right IR channel. -/
noncomputable def irChannelR (noise : ℕ → ℝ) (p : IRPreset) : List ℝ :=
  applyOps mulOp (fadeOpsIR (irLen p)) (preFadeR noise p)

/-- `generate_ir` for a resolved preset and a fixed noise stream. -/
noncomputable def generateIRcore (noise : ℕ → ℝ) (p : IRPreset) : List ℝ × List ℝ :=
  (irChannelL noise p, irChannelR noise p)

/-- `generate_ir(name)`: resolve the preset via `presets.get` and seed the
local generator with `random.Random(1337 + hash(name))`. -/
noncomputable def generateIR (stream : ℤ → ℕ → ℝ) (pyhash : String → ℤ)
    (name : String) : List ℝ × List ℝ :=
  generateIRcore (stream (1337 + pyhash name)) (pyPresetsGet name)

/-! ## Placeholder-note synthesizer (`generate_placeholder_note`) -/

/-- `midi_to_freq(m) = 440.0 * 2 ** ((m-69)/12.0)`. -/
noncomputable def midiToFreq (m : ℤ) : ℝ := 440 * (2 : ℝ) ^ (((m : ℝ) - 69) / 12)

/-- `N = int(sr*length)`. -/
def noteLenNat (d : ℚ) : ℕ := (pytrunc (44100 * d)).toNat

/-- Body of the main synthesis loop: the value stored at `y[i]`
(`val * env` with the additive partials, the hammer-noise burst for
`i < int(0.01*sr) = 441`, and `env = min(1.0, t/0.01) * exp(-t/2.0)`). -/
noncomputable def noteSample (noise : ℕ → ℝ) (m : ℤ) (i : ℕ) : ℝ :=
  let t : ℝ := (i : ℝ) / 44100
  let f : ℝ := midiToFreq m
  let env : ℝ := min 1 (t / 0.01) * Real.exp (-t / 2)
  let tone : ℝ := Real.sin (2 * Real.pi * f * t) * 0.55 +
    Real.sin (2 * Real.pi * 2 * f * t) * 0.22 +
    Real.sin (2 * Real.pi * 3.01 * f * t) * 0.12 +
    Real.sin (2 * Real.pi * 4.2 * f * t) * 0.08
  let val : ℝ := tone +
    (if i < 441 then (noise i * 2 - 1) * 0.4 * (1 - (i : ℝ) / 441) else 0)
  val * env

/-- The buffer `y` after the main loop, before the tail fade. -/
noncomputable def noteBufRaw (noise : ℕ → ℝ) (m : ℤ) (d : ℚ) : List ℝ :=
  (List.range (noteLenNat d)).map (noteSample noise m)

/-- The updates of the final fade loop
`for i in range(int(sr*0.02)): y[-i-1] *= i/(sr*0.02)`
(`int(sr*0.02) = 882` and `sr*0.02 = 882.0` under double arithmetic). -/
noncomputable def fadeOpsNote (N : ℕ) : List (ℕ × ℝ) :=
  (List.range 882).map (fun i => (N - 1 - i, (i : ℝ) / 882))

/-- The faded buffer. -/
noncomputable def noteBuf (noise : ℕ → ℝ) (m : ℤ) (d : ℚ) : List ℝ :=
  applyOps mulOp (fadeOpsNote (noteLenNat d)) (noteBufRaw noise m d)

/-- `generate_placeholder_note(midi, length)`.  When `len(y) < 882` the fade
loop evaluates `y[-i-1]` with `i+1 > len(y)` and raises `IndexError`
(modelled as `none`); otherwise the faded buffer is returned. -/
noncomputable def generatePlaceholderNote (stream : ℤ → ℕ → ℝ) (m : ℤ)
    (d : ℚ) : Option (List ℝ) :=
  if 882 ≤ noteLenNat d then some (noteBuf (stream (2025 + m)) m d) else none

/-- The synthesizer as invoked by `ensure_placeholder_or_convert`:
`generate_placeholder_note(midi, length=min(4.5, length_sec))`. -/
noncomputable def synthNote (stream : ℤ → ℕ → ℝ) (m : ℤ) (d : ℚ) :
    Option (List ℝ) :=
  generatePlaceholderNote stream m (min (9/2) d)

/-! ## PCM encoder (`write_wav_stereo`, `write_wav_mono`) -/

/-- `max(-1, min(1, x))`. -/
noncomputable def clamp1 (x : ℝ) : ℝ := max (-1) (min 1 x)

/-- `int(max(-1, min(1, x)) * 32767)`: clamp, scale, truncate toward zero. -/
noncomputable def quant16 (x : ℝ) : ℤ := rtrunc (clamp1 x * 32767)

/-- The in-memory result of the `wave` module calls: header fields set by
`setnchannels` / `setsampwidth` / `setframerate`, and the packed 16-bit
samples in the order in which `struct.pack` appends them to `frames`. -/
structure WavFile where
  nchannels : ℕ
  sampwidth : ℕ
  framerate : ℕ
  frames : List ℤ
  deriving DecidableEq

/-- The `frames` bytearray of `write_wav_stereo`: per loop index the two
packed samples `struct.pack('<hh', L, R)` are appended. -/
noncomputable def stereoFrames (dataL dataR : List ℝ) : List ℤ :=
  (List.range dataL.length).foldl
    (fun acc i => acc ++ [quant16 (dataL.getD i 0), quant16 (dataR.getD i 0)]) []

/-- `write_wav_stereo`: the loop reads `dataR[i]` for `i < len(dataL)`, so it
raises `IndexError` when `dataR` is shorter than `dataL`. -/
noncomputable def writeWavStereo (dataL dataR : List ℝ) (sr : ℕ) : Option WavFile :=
  if dataR.length < dataL.length then none
  else some ⟨2, 2, sr, stereoFrames dataL dataR⟩

/-- The `frames` bytearray of `write_wav_mono`. -/
noncomputable def monoFrames (data : List ℝ) : List ℤ :=
  (List.range data.length).foldl (fun acc i => acc ++ [quant16 (data.getD i 0)]) []

/-- `write_wav_mono`. -/
noncomputable def writeWavMono (data : List ℝ) (sr : ℕ) : WavFile :=
  ⟨1, 2, sr, monoFrames data⟩

/-! ## Machinery: evaluating sequences of point updates -/

theorem length_applyOps (op : ℝ → ℝ → ℝ) (ops : List (ℕ × ℝ)) (l : List ℝ) :
    (applyOps op ops l).length = l.length := by
  induction ops generalizing l with
  | nil => rfl
  | cons p ops ih =>
      simp only [applyOps, List.foldl_cons] at *
      rw [ih, List.length_set]

theorem getD_set_self (l : List ℝ) (n : ℕ) (a : ℝ) (h : n < l.length) :
    (l.set n a).getD n 0 = a := by
  induction l generalizing n with
  | nil => simp at h
  | cons x xs ih =>
      cases n with
      | zero => rfl
      | succ m => simpa using ih m (by simp at h; omega)

theorem getD_set_ne (l : List ℝ) (m n : ℕ) (a : ℝ) (h : m ≠ n) :
    (l.set m a).getD n 0 = l.getD n 0 := by
  induction l generalizing m n with
  | nil => rfl
  | cons x xs ih =>
      cases m with
      | zero => cases n with
        | zero => exact absurd rfl h
        | succ k => rfl
      | succ m0 => cases n with
        | zero => rfl
        | succ k => simpa using ih m0 k (by omega)

theorem getD_replicate (N j : ℕ) : (List.replicate N (0 : ℝ)).getD j 0 = 0 := by
  induction N generalizing j with
  | zero => rfl
  | succ n ih =>
      cases j with
      | zero => rfl
      | succ k => simpa [List.replicate] using ih k

/-- Evaluating a sequence of point updates at one index: only the updates
aimed at that index act on it, in order. -/
theorem getD_applyOps (op : ℝ → ℝ → ℝ) (ops : List (ℕ × ℝ)) (l : List ℝ) (j : ℕ)
    (h : ∀ p ∈ ops, p.1 < l.length) :
    (applyOps op ops l).getD j 0 =
      ((ops.filter (fun p => p.1 == j)).map Prod.snd).foldl op (l.getD j 0) := by
  induction ops generalizing l with
  | nil => rfl
  | cons p ops ih =>
      have hp : p.1 < l.length := h p (List.mem_cons_self p ops)
      have hrest : ∀ q ∈ ops, q.1 < (l.set p.1 (op (l.getD p.1 0) p.2)).length := by
        intro q hq
        rw [List.length_set]
        exact h q (List.mem_cons_of_mem _ hq)
      by_cases hj : p.1 = j
      · subst hj
        simp only [applyOps, List.foldl_cons] at *
        rw [ih _ hrest, getD_set_self _ _ _ hp]
        simp [List.filter_cons]
      · simp only [applyOps, List.foldl_cons] at *
        rw [ih _ hrest, getD_set_ne _ _ _ _ hj]
        simp [List.filter_cons, hj]

theorem foldl_addOp_sum (xs : List ℝ) (b : ℝ) :
    xs.foldl addOp b = b + xs.sum := by
  induction xs generalizing b with
  | nil => simp
  | cons x xs ih => simp [addOp, ih, add_assoc]

theorem filter_flatMap {α β : Type} (l : List α) (f : α → List β) (p : β → Bool) :
    (l.flatMap f).filter p = l.flatMap (fun a => (f a).filter p) := by
  induction l with
  | nil => rfl
  | cons x xs ih => simp [List.flatMap_cons, List.filter_append, ih]

/-- A filter over `List.range n` that accepts exactly one index. -/
theorem filter_range_singleton (q : ℕ → Bool) (n i0 : ℕ) (h0 : i0 < n)
    (hq : ∀ i, i < n → (q i = true ↔ i = i0)) :
    (List.range n).filter q = [i0] := by
  induction n with
  | zero => omega
  | succ m ih =>
      rw [List.range_succ, List.filter_append]
      by_cases hm : i0 = m
      · have h1 : (List.range m).filter q = [] := by
          rw [List.filter_eq_nil_iff]
          intro a ha
          have ham : a < m := List.mem_range.mp ha
          intro hqa
          have := (hq a (by omega)).mp hqa
          omega
        have h2 : q m = true := (hq m (by omega)).mpr hm.symm
        simp [h1, h2, List.filter_cons, hm]
      · have h0m : i0 < m := by omega
        have h1 : (List.range m).filter q = [i0] :=
          ih h0m (fun i hi => hq i (by omega))
        have h2 : ¬ q m = true := by
          intro hqm
          exact hm ((hq m (by omega)).mp hqm).symm
        simp [h1, h2, List.filter_cons]

/-- A filter over `List.range n` that accepts nothing. -/
theorem filter_range_nil (q : ℕ → Bool) (n : ℕ)
    (hq : ∀ i, i < n → ¬ q i = true) :
    (List.range n).filter q = [] := by
  rw [List.filter_eq_nil_iff]
  intro a ha
  exact hq a (List.mem_range.mp ha)

/-- A `flatMap` over `List.range n` whose blocks are all empty except one. -/
theorem flatMap_range_singleton {α : Type} (g : ℕ → List α) (n i0 : ℕ)
    (v : List α) (h0 : i0 < n)
    (hg : ∀ i, i < n → g i = if i = i0 then v else []) :
    (List.range n).flatMap g = v := by
  induction n with
  | zero => omega
  | succ m ih =>
      have hstep : (List.range (m + 1)).flatMap g = (List.range m).flatMap g ++ g m := by
        simp [List.range_succ]
      rw [hstep]
      by_cases hm : i0 = m
      · have h1 : (List.range m).flatMap g = [] := by
          rw [List.flatMap_eq_nil_iff]
          intro x hx
          have hxm : x < m := List.mem_range.mp hx
          rw [hg x (by omega), if_neg (by omega)]
        rw [h1, hg m (by omega), if_pos hm.symm, List.nil_append]
      · have h1 : (List.range m).flatMap g = v :=
          ih (by omega) (fun i hi => hg i (by omega))
        rw [h1, hg m (by omega), if_neg (fun he => hm he.symm), List.append_nil]

/-- `frames += block(i)` loops build the concatenation of the blocks. -/
theorem foldl_append_blocks {α : Type} (f : ℕ → List α) (n : ℕ) (acc : List α) :
    (List.range n).foldl (fun a i => a ++ f i) acc = acc ++ (List.range n).flatMap f := by
  induction n generalizing acc with
  | zero => simp
  | succ m ih =>
      rw [List.range_succ, List.foldl_append]
      simp only [List.foldl_cons, List.foldl_nil]
      rw [ih]
      simp [List.range_succ]

theorem getD_map_range (f : ℕ → ℝ) (n i : ℕ) (h : i < n) :
    ((List.range n).map f).getD i 0 = f i := by
  simp [List.getD_eq_getElem?_getD, List.getElem?_map, List.getElem?_range, h]

/-- A noise stream that always draws 0; used to instantiate theorems at
concrete inputs. -/
def zeroStream : ℤ → ℕ → ℝ := fun _ _ => 0

/-- Additive point updates evaluate to the base plus the sum of the matching
values. -/
theorem getD_applyOps_add (ops : List (ℕ × ℝ)) (l : List ℝ) (j : ℕ)
    (h : ∀ p ∈ ops, p.1 < l.length) :
    (applyOps addOp ops l).getD j 0 =
      l.getD j 0 + ((ops.filter (fun p => p.1 == j)).map Prod.snd).sum := by
  rw [getD_applyOps addOp ops l j h, foldl_addOp_sum]

/-! ## Lengths through the pipeline -/

theorem length_erBufL (p : IRPreset) : (erBufL p).length = irLen p := by
  rw [erBufL, length_applyOps, List.length_replicate]

theorem length_erBufR (p : IRPreset) : (erBufR p).length = irLen p := by
  rw [erBufR, length_applyOps, List.length_replicate]

theorem length_preFadeL (noise : ℕ → ℝ) (p : IRPreset) :
    (preFadeL noise p).length = irLen p := by
  rw [preFadeL, length_applyOps, length_erBufL]

theorem length_preFadeR (noise : ℕ → ℝ) (p : IRPreset) :
    (preFadeR noise p).length = irLen p := by
  rw [preFadeR, length_applyOps, length_erBufR]

theorem length_irChannelL (noise : ℕ → ℝ) (p : IRPreset) :
    (irChannelL noise p).length = irLen p := by
  rw [irChannelL, length_applyOps, length_preFadeL]

theorem length_irChannelR (noise : ℕ → ℝ) (p : IRPreset) :
    (irChannelR noise p).length = irLen p := by
  rw [irChannelR, length_applyOps, length_preFadeR]

theorem length_noteBufRaw (noise : ℕ → ℝ) (m : ℤ) (d : ℚ) :
    (noteBufRaw noise m d).length = noteLenNat d := by
  rw [noteBufRaw, List.length_map, List.length_range]

theorem length_noteBuf (noise : ℕ → ℝ) (m : ℤ) (d : ℚ) :
    (noteBuf noise m d).length = noteLenNat d := by
  rw [noteBuf, length_applyOps, length_noteBufRaw]

/-! ## Pointwise evaluation of the pipeline stages -/

/-- The early-reflection pass, pointwise: the sum of the guarded levels whose
computed offset is the inspected index. -/
theorem getD_erBufL (p : IRPreset) (j : ℕ) :
    (erBufL p).getD j 0 =
      (((p.early.filter (fun pd => erOff pd.1 < irLen p)).filter
        (fun pd => erOff pd.1 == j)).map (fun pd => (pd.2 : ℝ))).sum := by
  rw [erBufL, getD_applyOps_add]
  · rw [getD_replicate, erOpsL, List.filter_map, List.map_map, zero_add]
    rfl
  · intro q hq
    rw [List.length_replicate]
    rw [erOpsL] at hq
    rcases List.mem_map.mp hq with ⟨pd, hpd, rfl⟩
    have := List.of_mem_filter hpd
    simpa using this

theorem getD_erBufR (p : IRPreset) (j : ℕ) :
    (erBufR p).getD j 0 =
      (((p.early.filter (fun pd => erOff pd.1 < irLen p)).filter
        (fun pd => erOff pd.1 - 1 == j)).map (fun pd => (pd.2 : ℝ) * 0.98)).sum := by
  rw [erBufR, getD_applyOps_add]
  · rw [getD_replicate, erOpsR, List.filter_map, List.map_map, zero_add]
    rfl
  · intro q hq
    rw [List.length_replicate]
    rw [erOpsR] at hq
    rcases List.mem_map.mp hq with ⟨pd, hpd, rfl⟩
    have hlt : erOff pd.1 < irLen p := by simpa using List.of_mem_filter hpd
    omega

/-- The late-tail pass, pointwise: each in-range index receives exactly one
addend. -/
theorem getD_preFadeL (noise : ℕ → ℝ) (p : IRPreset) (j : ℕ) (hj : j < irLen p) :
    (preFadeL noise p).getD j 0 = (erBufL p).getD j 0 + tailValL noise p j := by
  have hfil : List.filter (fun q => q.1 == j) (tailOpsL noise p) =
      [(j, tailValL noise p j)] := by
    rw [tailOpsL, List.filter_map]
    rw [filter_range_singleton
      ((fun (q : ℕ × ℝ) => q.1 == j) ∘ fun i => (i, tailValL noise p i))
      (irLen p) j hj (by intro i hi; simp [Function.comp])]
    rfl
  rw [preFadeL, getD_applyOps_add, hfil]
  · simp
  · intro q hq
    rw [length_erBufL]
    rw [tailOpsL] at hq
    rcases List.mem_map.mp hq with ⟨i, hi, rfl⟩
    simpa using List.mem_range.mp hi

theorem getD_preFadeR (noise : ℕ → ℝ) (p : IRPreset) (j : ℕ) (hj : j < irLen p) :
    (preFadeR noise p).getD j 0 = (erBufR p).getD j 0 + tailValR noise p j := by
  have hfil : List.filter (fun q => q.1 == j) (tailOpsR noise p) =
      [(j, tailValR noise p j)] := by
    rw [tailOpsR, List.filter_map]
    rw [filter_range_singleton
      ((fun (q : ℕ × ℝ) => q.1 == j) ∘ fun i => (i, tailValR noise p i))
      (irLen p) j hj (by intro i hi; simp [Function.comp])]
    rfl
  rw [preFadeR, getD_applyOps_add, hfil]
  · simp
  · intro q hq
    rw [length_erBufR]
    rw [tailOpsR] at hq
    rcases List.mem_map.mp hq with ⟨i, hi, rfl⟩
    simpa using List.mem_range.mp hi

/-- The IR edge-fade pass at an index in the opening 10 ms: a single
multiplication by `i/441`. -/
theorem getD_fadeIR_low (l : List ℝ) (N j : ℕ) (hN : 882 ≤ N) (hl : l.length = N)
    (hj : j < 441) :
    (applyOps mulOp (fadeOpsIR N) l).getD j 0 = l.getD j 0 * ((j : ℝ) / 441) := by
  have hfil : (fadeOpsIR N).filter (fun p => p.1 == j) = [(j, (j : ℝ) / 441)] := by
    rw [fadeOpsIR, filter_flatMap]
    apply flatMap_range_singleton _ _ j _ hj
    intro i hi
    by_cases hij : i = j
    · subst hij
      have h2 : ¬ (N - 1 - i = i) := by omega
      simp [List.filter_cons, h2]
    · have h2 : ¬ (N - 1 - i = j) := by omega
      simp [List.filter_cons, hij, h2]
  rw [getD_applyOps _ _ _ _ ?_, hfil]
  · rfl
  · intro q hq
    rw [hl]
    rw [fadeOpsIR] at hq
    rcases List.mem_flatMap.mp hq with ⟨i, hi, hqi⟩
    have hi441 : i < 441 := List.mem_range.mp hi
    rcases List.mem_cons.mp hqi with h | h
    · subst h
      show i < N
      omega
    · rcases List.mem_cons.mp h with h | h
      · subst h
        show N - 1 - i < N
        omega
      · simp at h

/-- The note tail-fade pass leaves indices before the final 20 ms unchanged. -/
theorem getD_fadeNote_early (l : List ℝ) (N j : ℕ) (hl : l.length = N)
    (hj : j < N - 882) :
    (applyOps mulOp (fadeOpsNote N) l).getD j 0 = l.getD j 0 := by
  have hfil : (fadeOpsNote N).filter (fun p => p.1 == j) = [] := by
    rw [fadeOpsNote, List.filter_map]
    rw [filter_range_nil]
    · rfl
    · intro i hi
      simp only [Function.comp_apply, beq_iff_eq]
      omega
  rw [getD_applyOps _ _ _ _ ?_, hfil]
  · rfl
  · intro q hq
    rw [hl]
    rw [fadeOpsNote] at hq
    rcases List.mem_map.mp hq with ⟨i, hi, rfl⟩
    have := List.mem_range.mp hi
    show N - 1 - i < N
    omega

/-- The note tail-fade pass multiplies the final sample by `0/882`. -/
theorem getD_fadeNote_last (l : List ℝ) (N : ℕ) (hN : 882 ≤ N) (hl : l.length = N) :
    (applyOps mulOp (fadeOpsNote N) l).getD (N - 1) 0 =
      l.getD (N - 1) 0 * ((0 : ℝ) / 882) := by
  have hfil : (fadeOpsNote N).filter (fun p => p.1 == N - 1) = [(N - 1, (0 : ℝ) / 882)] := by
    rw [fadeOpsNote, List.filter_map]
    rw [filter_range_singleton
      ((fun (q : ℕ × ℝ) => q.1 == N - 1) ∘ fun i => (N - 1 - i, (i : ℝ) / 882))
      882 0 (by omega)
      (by intro i hi; simp only [Function.comp_apply, beq_iff_eq]; omega)]
    simp
  rw [getD_applyOps _ _ _ _ ?_, hfil]
  · rfl
  · intro q hq
    rw [hl]
    rw [fadeOpsNote] at hq
    rcases List.mem_map.mp hq with ⟨i, hi, rfl⟩
    have := List.mem_range.mp hi
    show N - 1 - i < N
    omega

/-! ## Resolved presets -/

theorem toNat_eq_of (n : ℤ) (m : ℕ) (h : n = (m : ℤ)) : n.toNat = m := by omega

theorem noteLenNat_eq (d : ℚ) (m : ℕ) (h : pytrunc (44100 * d) = (m : ℤ)) :
    noteLenNat d = m := by
  simp only [noteLenNat]
  omega

theorem irLen_eq (p : IRPreset) (m : ℕ) (h : pytrunc (44100 * p.seconds) = (m : ℤ)) :
    irLen p = m := by
  simp only [irLen]
  omega

theorem irLen_studio : irLen studioPreset = 39690 :=
  irLen_eq _ _ (by norm_num [studioPreset, pytrunc])

theorem irLen_mediumRoom : irLen mediumRoomPreset = 66150 :=
  irLen_eq _ _ (by norm_num [mediumRoomPreset, pytrunc])

theorem irLen_hall : irLen hallPreset = 114660 :=
  irLen_eq _ _ (by norm_num [hallPreset, pytrunc])

theorem irLen_cathedral : irLen cathedralPreset = 185220 :=
  irLen_eq _ _ (by norm_num [cathedralPreset, pytrunc])

theorem irLen_plate : irLen platePreset = 79380 :=
  irLen_eq _ _ (by norm_num [platePreset, pytrunc])

theorem pyPresetsGet_studio : pyPresetsGet "studio" = studioPreset := by
  simp [pyPresetsGet]

theorem pyPresetsGet_mediumRoom : pyPresetsGet "medium-room" = mediumRoomPreset := by
  simp [pyPresetsGet]

theorem pyPresetsGet_hall : pyPresetsGet "hall" = hallPreset := by
  simp [pyPresetsGet]

theorem pyPresetsGet_cathedral : pyPresetsGet "cathedral" = cathedralPreset := by
  simp [pyPresetsGet]

theorem pyPresetsGet_plate : pyPresetsGet "plate" = platePreset := by
  simp [pyPresetsGet]

/-- An unrecognized preset name resolves, via the `presets.get` default, to
the medium-room preset. -/
theorem pyPresetsGet_default (name : String) (h : name ∉ fiveNames) :
    pyPresetsGet name = mediumRoomPreset := by
  rw [fiveNames] at h
  simp only [List.mem_cons, List.mem_singleton] at h
  push_neg at h
  obtain ⟨h1, h2, h3, h4, h5⟩ := h
  rw [pyPresetsGet, if_neg h1, if_neg h2, if_neg h3, if_neg h4, if_neg h5.1]

theorem irLen_resolved (name : String) : 882 ≤ irLen (pyPresetsGet name) := by
  unfold pyPresetsGet
  split_ifs
  · rw [irLen_studio]; omega
  · rw [irLen_mediumRoom]; omega
  · rw [irLen_hall]; omega
  · rw [irLen_cathedral]; omega
  · rw [irLen_plate]; omega
  · rw [irLen_mediumRoom]; omega

theorem synthNote_eq_some (stream : ℤ → ℕ → ℝ) (m : ℤ) (d : ℚ)
    (h : 882 ≤ noteLenNat (min (9/2) d)) :
    synthNote stream m d = some (noteBuf (stream (2025 + m)) m (min (9/2) d)) := by
  rw [synthNote, generatePlaceholderNote, if_pos h]

/-! ## Claim theorems -/

/-- Claim C9: whenever the rendered length `int(44100*min(4.5, duration))`
is below `int(44100*0.02) = 882` samples — in particular for any requested
duration below 0.02 s — the placeholder-note synthesizer does not return a
buffer: its final fade-out loop indexes past the start of the buffer and
raises `IndexError` (modelled as `none`). -/
theorem c9_short_duration_crash (stream : ℤ → ℕ → ℝ) (m : ℤ) (d : ℚ)
    (h : noteLenNat (min (9/2) d) < 882) :
    synthNote stream m d = none := by
  rw [synthNote, generatePlaceholderNote, if_neg (by omega)]

theorem c9_short_duration_crash_witness :
    synthNote zeroStream 60 (1/100) = none :=
  c9_short_duration_crash zeroStream 60 (1/100)
    (by norm_num [noteLenNat, pytrunc, min_def])

/-- Claim C7: for every pitch and every duration for which a buffer is
returned, the buffer's final sample is exactly 0, because the 20 ms
fade-out loop multiplies the last sample by `0/882` regardless of the
envelope state. -/
theorem c7_final_sample_zero (stream : ℤ → ℕ → ℝ) (m : ℤ) (d : ℚ)
    (h : 882 ≤ noteLenNat (min (9/2) d)) :
    synthNote stream m d = some (noteBuf (stream (2025 + m)) m (min (9/2) d)) ∧
      (noteBuf (stream (2025 + m)) m (min (9/2) d)).getD
        (noteLenNat (min (9/2) d) - 1) 0 = 0 := by
  refine ⟨synthNote_eq_some stream m d h, ?_⟩
  rw [noteBuf, getD_fadeNote_last _ _ h (length_noteBufRaw ..)]
  rw [zero_div, mul_zero]

theorem c7_final_sample_zero_witness :
    synthNote zeroStream 69 1 = some (noteBuf (zeroStream (2025 + 69)) 69 (min (9/2) 1)) ∧
      (noteBuf (zeroStream (2025 + 69)) 69 (min (9/2) 1)).getD
        (noteLenNat (min (9/2) 1) - 1) 0 = 0 :=
  c7_final_sample_zero zeroStream 69 1 (by norm_num [noteLenNat, pytrunc, min_def])

/-- Claim C4: for each of the five defined presets the impulse-response
synthesizer returns two buffers of identical length, and that length is
`round(44100 * seconds)` for the preset's total tail duration. -/
theorem c4_preset_lengths (stream : ℤ → ℕ → ℝ) (pyhash : String → ℤ)
    (name : String) (h : name ∈ fiveNames) :
    (generateIR stream pyhash name).1.length = (generateIR stream pyhash name).2.length ∧
      ((generateIR stream pyhash name).1.length : ℤ) =
        round ((44100 : ℚ) * (pyPresetsGet name).seconds) := by
  simp only [generateIR, generateIRcore]
  constructor
  · rw [length_irChannelL, length_irChannelR]
  · rw [length_irChannelL]
    fin_cases h
    · rw [pyPresetsGet_studio, irLen_studio]
      norm_num [studioPreset, round_eq]
    · rw [pyPresetsGet_mediumRoom, irLen_mediumRoom]
      norm_num [mediumRoomPreset, round_eq]
    · rw [pyPresetsGet_hall, irLen_hall]
      norm_num [hallPreset, round_eq]
    · rw [pyPresetsGet_cathedral, irLen_cathedral]
      norm_num [cathedralPreset, round_eq]
    · rw [pyPresetsGet_plate, irLen_plate]
      norm_num [platePreset, round_eq]

theorem c4_preset_lengths_witness :
    ((generateIR zeroStream (fun _ => 0) "studio").1.length =
      (generateIR zeroStream (fun _ => 0) "studio").2.length ∧
      ((generateIR zeroStream (fun _ => 0) "studio").1.length : ℤ) =
        round ((44100 : ℚ) * (pyPresetsGet "studio").seconds)) :=
  c4_preset_lengths zeroStream (fun _ => 0) "studio" (by decide)

/-- Claim C3 counterexample: at requested duration 0.375 s (< 4.5 s) the
synthesizer returns a buffer of `int(44100*0.375) = int(16537.5) = 16537`
samples, while the claimed length `round(44100*0.375)` is 16538. -/
theorem c3_counterexample :
    (synthNote zeroStream 60 (3/8)).map List.length = some 16537 ∧
      ¬ ((16537 : ℤ) = round ((44100 : ℚ) * (3/8))) := by
  have hmin : min (9/2 : ℚ) (3/8) = 3/8 := min_eq_right (by norm_num)
  have hlen : noteLenNat (min (9/2 : ℚ) (3/8)) = 16537 := by
    rw [hmin]
    exact noteLenNat_eq _ _ (by norm_num [pytrunc])
  constructor
  · rw [synthNote_eq_some zeroStream 60 (3/8) (by omega)]
    simp [length_noteBuf, hlen]
  · norm_num [round_eq]

/-- Claim C3 (amended): the rendered duration is `min(4.5, duration)`; for a
requested duration ≥ 4.5 s the buffer has exactly `round(44100*4.5) = 198450`
samples, and for a requested duration between 0.02 s (below which the fade
loop raises `IndexError`) and 4.5 s it has `int(44100*duration)` samples —
truncation toward zero, not rounding. -/
theorem c3_note_lengths (stream : ℤ → ℕ → ℝ) (m : ℤ) (d : ℚ) :
    (9/2 ≤ d → (synthNote stream m d).map List.length = some 198450) ∧
      (1/50 ≤ d → d < 9/2 →
        (synthNote stream m d).map List.length = some (pytrunc (44100 * d)).toNat) := by
  constructor
  · intro h
    have hmin : min (9/2 : ℚ) d = 9/2 := min_eq_left h
    have hlen : noteLenNat (min (9/2 : ℚ) d) = 198450 := by
      rw [hmin]
      exact noteLenNat_eq _ _ (by norm_num [pytrunc])
    rw [synthNote_eq_some stream m d (by omega)]
    simp [length_noteBuf, hlen]
  · intro h1 h2
    have hmin : min (9/2 : ℚ) d = d := min_eq_right (le_of_lt h2)
    have hd : (0 : ℚ) ≤ 44100 * d := by nlinarith
    have hge : (882 : ℤ) ≤ pytrunc (44100 * d) := by
      rw [pytrunc, if_pos hd]
      refine Int.le_floor.mpr ?_
      push_cast
      nlinarith
    have h882 : 882 ≤ noteLenNat (min (9/2 : ℚ) d) := by
      rw [hmin, noteLenNat]
      omega
    rw [synthNote_eq_some stream m d h882, Option.map_some']
    have hl : (noteBuf (stream (2025 + m)) m (min (9/2 : ℚ) d)).length =
        (pytrunc (44100 * d)).toNat := by
      rw [length_noteBuf, hmin, noteLenNat]
    exact congrArg some hl

theorem c3_note_lengths_witness :
    (synthNote zeroStream 60 5).map List.length = some 198450 ∧
      (synthNote zeroStream 60 1).map List.length = some (pytrunc (44100 * 1)).toNat :=
  ⟨(c3_note_lengths zeroStream 60 5).1 (by norm_num),
   (c3_note_lengths zeroStream 60 1).2 (by norm_num) (by norm_num)⟩

/-- Claim C8: in the model the `random.Random` semantics is a fixed function
of the seed, so determinism of both synthesizers is the statement that each
output depends on the ambient stream only through the locally created
generator's seed — `1337 + hash(name)` for impulse responses and
`2025 + midi` for notes — and on nothing else. -/
theorem c8_determinism (s1 s2 : ℤ → ℕ → ℝ) (pyhash : String → ℤ)
    (name : String) (m : ℤ) (d : ℚ)
    (hir : s1 (1337 + pyhash name) = s2 (1337 + pyhash name))
    (hnote : s1 (2025 + m) = s2 (2025 + m)) :
    generateIR s1 pyhash name = generateIR s2 pyhash name ∧
      synthNote s1 m d = synthNote s2 m d := by
  constructor
  · rw [generateIR, generateIR, hir]
  · rw [synthNote, synthNote, generatePlaceholderNote, generatePlaceholderNote, hnote]

theorem c8_determinism_witness :
    generateIR zeroStream (fun _ => 0) "hall" = generateIR zeroStream (fun _ => 0) "hall" ∧
      synthNote zeroStream 60 1 = synthNote zeroStream 60 1 :=
  c8_determinism zeroStream zeroStream (fun _ => 0) "hall" 60 1 rfl rfl

/-- Claim C6: before the final 20 ms fade the sample at index `i` (time
`t = i/44100`) is the envelope `min(1, t/0.01) * exp(-t/2)` times the sum of
the four partials at ratios 1, 2, 3.01, 4.2 of `440 * 2^((m-69)/12)` with
weights 0.55, 0.22, 0.12, 0.08, plus the seeded hammer noise, present only
for `i < 441`, scaled by 0.4 and ramped linearly to zero over that window. -/
theorem c6_note_sample_formula (stream : ℤ → ℕ → ℝ) (m : ℤ) (d : ℚ) (i : ℕ)
    (hbuf : 882 ≤ noteLenNat (min (9/2) d))
    (hi : i < noteLenNat (min (9/2) d) - 882) :
    synthNote stream m d = some (noteBuf (stream (2025 + m)) m (min (9/2) d)) ∧
      (noteBuf (stream (2025 + m)) m (min (9/2) d)).getD i 0 =
        (min 1 (((i : ℝ) / 44100) / 0.01) * Real.exp (-((i : ℝ) / 44100) / 2)) *
          ((Real.sin (2 * Real.pi * (440 * (2 : ℝ) ^ (((m : ℝ) - 69) / 12)) *
                ((i : ℝ) / 44100)) * 0.55 +
              Real.sin (2 * Real.pi * 2 * (440 * (2 : ℝ) ^ (((m : ℝ) - 69) / 12)) *
                ((i : ℝ) / 44100)) * 0.22 +
              Real.sin (2 * Real.pi * 3.01 * (440 * (2 : ℝ) ^ (((m : ℝ) - 69) / 12)) *
                ((i : ℝ) / 44100)) * 0.12 +
              Real.sin (2 * Real.pi * 4.2 * (440 * (2 : ℝ) ^ (((m : ℝ) - 69) / 12)) *
                ((i : ℝ) / 44100)) * 0.08) +
            (if i < 441 then
              (stream (2025 + m) i * 2 - 1) * 0.4 * (1 - (i : ℝ) / 441) else 0)) := by
  refine ⟨synthNote_eq_some stream m d hbuf, ?_⟩
  rw [noteBuf, getD_fadeNote_early _ _ _ (length_noteBufRaw ..) hi]
  rw [noteBufRaw, getD_map_range _ _ _ (by omega)]
  simp only [noteSample, midiToFreq]
  ring

theorem c6_note_sample_formula_witness :
    synthNote zeroStream 69 1 = some (noteBuf (zeroStream (2025 + 69)) 69 (min (9/2) 1)) ∧
      (noteBuf (zeroStream (2025 + 69)) 69 (min (9/2) 1)).getD 0 0 =
        (min 1 (((0 : ℕ) : ℝ) / 44100 / 0.01) * Real.exp (-(((0 : ℕ) : ℝ) / 44100) / 2)) *
          ((Real.sin (2 * Real.pi * (440 * (2 : ℝ) ^ ((((69 : ℤ) : ℝ) - 69) / 12)) *
                (((0 : ℕ) : ℝ) / 44100)) * 0.55 +
              Real.sin (2 * Real.pi * 2 * (440 * (2 : ℝ) ^ ((((69 : ℤ) : ℝ) - 69) / 12)) *
                (((0 : ℕ) : ℝ) / 44100)) * 0.22 +
              Real.sin (2 * Real.pi * 3.01 * (440 * (2 : ℝ) ^ ((((69 : ℤ) : ℝ) - 69) / 12)) *
                (((0 : ℕ) : ℝ) / 44100)) * 0.12 +
              Real.sin (2 * Real.pi * 4.2 * (440 * (2 : ℝ) ^ ((((69 : ℤ) : ℝ) - 69) / 12)) *
                (((0 : ℕ) : ℝ) / 44100)) * 0.08) +
            (if (0 : ℕ) < 441 then
              (zeroStream (2025 + 69) 0 * 2 - 1) * 0.4 * (1 - ((0 : ℕ) : ℝ) / 441) else 0)) :=
  c6_note_sample_formula zeroStream 69 1 0
    (by norm_num [noteLenNat, pytrunc, min_def])
    (by rw [noteLenNat_eq (min (9/2 : ℚ) 1) 44100 (by norm_num [pytrunc, min_def])]; omega)

/-- Claim C1 (amended): an unrecognized preset name resolves, via the
`presets.get` default, to the medium-room preset parameters, so both channels
have medium-room's lengths; and the output is identical to that of
"medium-room" whenever the noise stream seeded by `1337 + hash(name)`
coincides with the one seeded by `1337 + hash("medium-room")` — but the seed
depends on the name's hash, so the noise tails differ in general. -/
theorem c1_unknown_preset (stream : ℤ → ℕ → ℝ) (pyhash : String → ℤ)
    (name : String) (h : name ∉ fiveNames) :
    ((generateIR stream pyhash name).1.length =
        (generateIR stream pyhash "medium-room").1.length ∧
      (generateIR stream pyhash name).2.length =
        (generateIR stream pyhash "medium-room").2.length) ∧
      (stream (1337 + pyhash name) = stream (1337 + pyhash "medium-room") →
        generateIR stream pyhash name = generateIR stream pyhash "medium-room") := by
  constructor
  · constructor
    · simp only [generateIR, generateIRcore]
      rw [length_irChannelL, length_irChannelL, pyPresetsGet_default name h,
        pyPresetsGet_mediumRoom]
    · simp only [generateIR, generateIRcore]
      rw [length_irChannelR, length_irChannelR, pyPresetsGet_default name h,
        pyPresetsGet_mediumRoom]
  · intro hstream
    simp only [generateIR]
    rw [hstream, pyPresetsGet_default name h, pyPresetsGet_mediumRoom]

theorem c1_unknown_preset_witness :
    ((generateIR zeroStream (fun _ => 0) "foo").1.length =
        (generateIR zeroStream (fun _ => 0) "medium-room").1.length ∧
      (generateIR zeroStream (fun _ => 0) "foo").2.length =
        (generateIR zeroStream (fun _ => 0) "medium-room").2.length) ∧
      (zeroStream (1337 + (fun (_ : String) => (0 : ℤ)) "foo") =
          zeroStream (1337 + (fun (_ : String) => (0 : ℤ)) "medium-room") →
        generateIR zeroStream (fun _ => 0) "foo" =
          generateIR zeroStream (fun _ => 0) "medium-room") :=
  c1_unknown_preset zeroStream (fun _ => 0) "foo" (by decide)

theorem erOff_eq (dms : ℕ) (m : ℕ)
    (h : pytrunc (44100 * ((dms : ℚ) / 1000)) = (m : ℤ)) : erOff dms = m := by
  simp only [erOff]
  omega

/-- A hash environment in which "foo" and "medium-room" hash differently. -/
def cHash : String → ℤ := fun s => if s = "medium-room" then 0 else 1

/-- The draws of `random.Random(1338)` in the instantiated model. -/
noncomputable def cNoiseF : ℕ → ℝ := fun _ => 0

/-- The draws of `random.Random(1337)` in the instantiated model. -/
noncomputable def cNoiseM : ℕ → ℝ := fun _ => 1/2

/-- A stream semantics under which seed 1338 always draws 0 and every other
seed always draws 1/2 (all draws within `random()`'s range `[0,1)`). -/
noncomputable def cStream : ℤ → ℕ → ℝ := fun seed => if seed = 1338 then cNoiseF else cNoiseM

theorem cStream_foo : cStream (1337 + cHash "foo") = cNoiseF := by
  have h : cHash "foo" = 1 := by simp [cHash]
  rw [h, show (1337 + 1 : ℤ) = 1338 from by norm_num]
  simp [cStream]

theorem cStream_medium : cStream (1337 + cHash "medium-room") = cNoiseM := by
  have h : cHash "medium-room" = 0 := by simp [cHash]
  rw [h, show (1337 + 0 : ℤ) = 1337 from by norm_num]
  simp [cStream]

theorem valL_cNoiseM_one : valL cNoiseM 1 = 0 := by
  have h0 : valL cNoiseM 0 = 0 := by
    rw [show valL cNoiseM 0 = (0 + 0.05 * (cNoiseM 0 * 2 - 1)) / 1.05 from rfl]
    norm_num [cNoiseM]
  rw [show (1 : ℕ) = 0 + 1 from rfl,
    show valL cNoiseM (0 + 1) = (valL cNoiseM 0 + 0.05 * (cNoiseM (2 * (0 + 1)) * 2 - 1)) / 1.05
      from rfl, h0]
  norm_num [cNoiseM]

theorem valL_cNoiseF_one : valL cNoiseF 1 < 0 := by
  have h0 : valL cNoiseF 0 = (0 + 0.05 * (0 * 2 - 1)) / 1.05 := by
    rw [show valL cNoiseF 0 = (0 + 0.05 * (cNoiseF 0 * 2 - 1)) / 1.05 from rfl]
    norm_num [cNoiseF]
  rw [show (1 : ℕ) = 0 + 1 from rfl,
    show valL cNoiseF (0 + 1) = (valL cNoiseF 0 + 0.05 * (cNoiseF (2 * (0 + 1)) * 2 - 1)) / 1.05
      from rfl, h0]
  norm_num [cNoiseF]

theorem erBufL_medium_one : (erBufL mediumRoomPreset).getD 1 0 = 0 := by
  rw [getD_erBufL]
  have h7 : erOff 7 = 308 := erOff_eq 7 308 (by norm_num [pytrunc])
  have h13 : erOff 13 = 573 := erOff_eq 13 573 (by norm_num [pytrunc])
  have h23 : erOff 23 = 1014 := erOff_eq 23 1014 (by norm_num [pytrunc])
  rw [show mediumRoomPreset.early = [(7, 7/10), (13, 5/10), (23, 35/100)] from rfl]
  simp [h7, h13, h23, irLen_mediumRoom, List.filter]

theorem irChannelL_medium_one (noise : ℕ → ℝ) :
    (irChannelL noise mediumRoomPreset).getD 1 0 =
      ((erBufL mediumRoomPreset).getD 1 0 + tailValL noise mediumRoomPreset 1) *
        (((1 : ℕ) : ℝ) / 441) := by
  rw [irChannelL, getD_fadeIR_low _ _ _ (by rw [irLen_mediumRoom]; omega)
    (length_preFadeL ..) (by omega)]
  rw [getD_preFadeL _ _ _ (by rw [irLen_mediumRoom]; omega)]

/-- Claim C1 counterexample: the claim fails at the unrecognized name "foo".
Although "foo" resolves to the medium-room preset parameters, the noise tail
is seeded with `1337 + hash("foo")` rather than `1337 + hash("medium-room")`,
so under a hash environment in which the two names hash differently and a
stream semantics giving the two seeds different draws, the left channels
already differ at sample index 1. -/
theorem c1_counterexample :
    ¬ (∀ (stream : ℤ → ℕ → ℝ) (pyhash : String → ℤ) (name : String),
        name ∉ fiveNames →
        generateIR stream pyhash name = generateIR stream pyhash "medium-room") := by
  intro hclaim
  have hEq := hclaim cStream cHash "foo" (by decide)
  have hfst := congrArg Prod.fst hEq
  simp only [generateIR, generateIRcore] at hfst
  rw [pyPresetsGet_default "foo" (by decide), pyPresetsGet_mediumRoom,
    cStream_foo, cStream_medium] at hfst
  have h1 := congrArg (fun l : List ℝ => l.getD 1 0) hfst
  simp only at h1
  rw [irChannelL_medium_one cNoiseF, irChannelL_medium_one cNoiseM,
    erBufL_medium_one] at h1
  have hTailM : tailValL cNoiseM mediumRoomPreset 1 = 0 := by
    rw [tailValL, valL_cNoiseM_one]
    ring
  have hTailF : tailValL cNoiseF mediumRoomPreset 1 < 0 := by
    rw [tailValL]
    have hexp : 0 < Real.exp (-((1 : ℕ) : ℝ) / ((mediumRoomPreset.decay : ℝ) * 44100)) :=
      Real.exp_pos _
    have hhf : (0 : ℝ) <
        1 - (mediumRoomPreset.hfDecay : ℝ) * (((1 : ℕ) : ℝ) / (irLen mediumRoomPreset : ℝ)) := by
      rw [irLen_mediumRoom]
      have hcast : (mediumRoomPreset.hfDecay : ℝ) = 0.6 := by
        norm_num [mediumRoomPreset]
      rw [hcast]
      norm_num
    have hneg := mul_neg_of_neg_of_pos
      (mul_neg_of_neg_of_pos (mul_neg_of_neg_of_pos valL_cNoiseF_one hexp) hhf)
      (show (0 : ℝ) < 0.6 from by norm_num)
    exact hneg
  rw [hTailM] at h1
  have hlhs : (0 + tailValL cNoiseF mediumRoomPreset 1) * (((1 : ℕ) : ℝ) / 441) < 0 := by
    rw [zero_add]
    exact mul_neg_of_neg_of_pos hTailF (by norm_num)
  rw [h1] at hlhs
  norm_num at hlhs

/-- The claimed early-reflection index `round(44100 * delayMs/1000)`. -/
def roundOff (dms : ℕ) : ℕ := (round ((44100 : ℚ) * dms / 1000)).toNat

theorem roundOff_eq (dms m : ℕ) (h : round ((44100 : ℚ) * dms / 1000) = (m : ℤ)) :
    roundOff dms = m := by
  simp only [roundOff]
  omega

/-- The early-reflection placement asserted by the claim: `level` summed over
the pairs whose rounded offset is the inspected index (in bounds). -/
noncomputable def erSpecRoundL (p : IRPreset) (j : ℕ) : ℝ :=
  ((p.early.filter (fun pd => (roundOff pd.1 == j) && decide (roundOff pd.1 < irLen p))).map
    (fun pd => (pd.2 : ℝ))).sum

/-- Right-channel version of the claimed placement (`level*0.98` at the
rounded offset minus one). -/
noncomputable def erSpecRoundR (p : IRPreset) (j : ℕ) : ℝ :=
  ((p.early.filter (fun pd => (roundOff pd.1 - 1 == j) && decide (roundOff pd.1 < irLen p))).map
    (fun pd => (pd.2 : ℝ) * 0.98)).sum

/-- Claim C2 counterexample: the code computes offsets with `int(...)`
(truncation), not rounding.  For the medium-room pair `(7 ms, 0.7)` the
claimed index is `round(308.7) = 309`, but the early-reflection pass leaves
index 309 at 0 (the level is added at index 308). -/
theorem c2_counterexample :
    ¬ (∀ name ∈ fiveNames, ∀ j : ℕ,
        (erBufL (pyPresetsGet name)).getD j 0 = erSpecRoundL (pyPresetsGet name) j ∧
          (erBufR (pyPresetsGet name)).getD j 0 = erSpecRoundR (pyPresetsGet name) j) := by
  intro h
  have h309 := (h "medium-room" (by decide) 309).1
  rw [pyPresetsGet_mediumRoom] at h309
  have hL : (erBufL mediumRoomPreset).getD 309 0 = 0 := by
    rw [getD_erBufL]
    have h7 : erOff 7 = 308 := erOff_eq 7 308 (by norm_num [pytrunc])
    have h13 : erOff 13 = 573 := erOff_eq 13 573 (by norm_num [pytrunc])
    have h23 : erOff 23 = 1014 := erOff_eq 23 1014 (by norm_num [pytrunc])
    rw [show mediumRoomPreset.early = [(7, 7/10), (13, 5/10), (23, 35/100)] from rfl]
    simp [h7, h13, h23, irLen_mediumRoom, List.filter]
  have hRval : erSpecRoundL mediumRoomPreset 309 = ((7/10 : ℚ) : ℝ) := by
    rw [erSpecRoundL]
    have r7 : roundOff 7 = 309 := roundOff_eq 7 309 (by norm_num [round_eq])
    have r13 : roundOff 13 = 573 := roundOff_eq 13 573 (by norm_num [round_eq])
    have r23 : roundOff 23 = 1014 := roundOff_eq 23 1014 (by norm_num [round_eq])
    rw [show mediumRoomPreset.early = [(7, 7/10), (13, 5/10), (23, 35/100)] from rfl]
    simp [r7, r13, r23, irLen_mediumRoom, List.filter]
  rw [hL, hRval] at h309
  norm_num at h309

/-- The early-reflection placement the code implements: `level` summed over
the pairs whose truncated offset `int(44100*delayMs/1000)` is the inspected
index (in bounds). -/
noncomputable def erSpecTruncL (p : IRPreset) (j : ℕ) : ℝ :=
  ((p.early.filter (fun pd => (erOff pd.1 == j) && decide (erOff pd.1 < irLen p))).map
    (fun pd => (pd.2 : ℝ))).sum

/-- Right-channel version: `level*0.98` summed at `max(0, off-1)` (which `ℕ`
subtraction computes), under the same `off < N` guard. -/
noncomputable def erSpecTruncR (p : IRPreset) (j : ℕ) : ℝ :=
  ((p.early.filter (fun pd => (erOff pd.1 - 1 == j) && decide (erOff pd.1 < irLen p))).map
    (fun pd => (pd.2 : ℝ) * 0.98)).sum

/-- Claim C2 (amended): for every preset (any name, via `presets.get`) and
every index, the early-reflection pass leaves at that index, on the left
channel, the sum of the levels of the pairs whose `int(44100*delayMs/1000)`
offset (truncation, not rounding) equals the index and is within bounds;
and on the right channel the sum of `level*0.98` over the pairs whose offset
minus one (clamped at 0) equals the index, under the same guard.  Colliding
reflections accumulate additively. -/
theorem c2_early_reflections (name : String) (j : ℕ) :
    (erBufL (pyPresetsGet name)).getD j 0 = erSpecTruncL (pyPresetsGet name) j ∧
      (erBufR (pyPresetsGet name)).getD j 0 = erSpecTruncR (pyPresetsGet name) j := by
  constructor
  · rw [getD_erBufL, erSpecTruncL, List.filter_filter]
  · rw [getD_erBufR, erSpecTruncR, List.filter_filter]

theorem map_range_getD (l : List ℝ) (g : ℝ → ℤ) :
    (List.range l.length).map (fun i => g (l.getD i 0)) = l.map g := by
  apply List.ext_getElem
  · simp
  · intro i h1 h2
    simp only [List.getElem_map, List.getElem_range]
    have hi : i < l.length := by simpa using h2
    rw [List.getD_eq_getElem?_getD, List.getElem?_eq_getElem hi, Option.getD_some]

theorem flatMap_singleton_map {α β : Type} (l : List α) (f : α → β) :
    l.flatMap (fun x => [f x]) = l.map f := by
  induction l with
  | nil => rfl
  | cons x xs ih => simp [List.flatMap_cons, ih]

/-- Claim C5: the PCM encoder clamps each sample to [-1, 1], multiplies by
32767 and truncates toward zero; stereo frames interleave left/right per
loop index; the header carries exactly channel count (2 resp. 1), sample
width 2 bytes, and the given sample rate.  (The stereo writer requires the
right buffer to be at least as long as the left one; the callers pass
equal-length channels.) -/
theorem c5_pcm_encoder (dataL dataR dataM : List ℝ) (sr : ℕ)
    (hlen : dataR.length = dataL.length) :
    writeWavStereo dataL dataR sr =
      some ⟨2, 2, sr,
        (List.range dataL.length).flatMap (fun i =>
          [rtrunc (max (-1) (min 1 (dataL.getD i 0)) * 32767),
           rtrunc (max (-1) (min 1 (dataR.getD i 0)) * 32767)])⟩ ∧
      writeWavMono dataM sr =
        ⟨1, 2, sr, dataM.map (fun x => rtrunc (max (-1) (min 1 x) * 32767))⟩ := by
  constructor
  · rw [writeWavStereo, if_neg (by omega)]
    refine congrArg some (congrArg (WavFile.mk 2 2 sr) ?_)
    rw [stereoFrames, foldl_append_blocks, List.nil_append]
    simp only [quant16, clamp1]
  · rw [writeWavMono]
    refine congrArg (WavFile.mk 1 2 sr) ?_
    rw [monoFrames, foldl_append_blocks, List.nil_append,
      flatMap_singleton_map, map_range_getD]
    have hfun : quant16 = fun x => rtrunc (max (-1) (min 1 x) * 32767) := by
      funext x
      rw [quant16, clamp1]
    rw [hfun]

theorem c5_pcm_encoder_witness :
    writeWavStereo [0] [0] 44100 =
      some ⟨2, 2, 44100,
        (List.range ([0] : List ℝ).length).flatMap (fun i =>
          [rtrunc (max (-1) (min 1 (([0] : List ℝ).getD i 0)) * 32767),
           rtrunc (max (-1) (min 1 (([0] : List ℝ).getD i 0)) * 32767)])⟩ ∧
      writeWavMono [(1/2 : ℝ)] 44100 =
        ⟨1, 2, 44100, [(1/2 : ℝ)].map (fun x => rtrunc (max (-1) (min 1 x) * 32767))⟩ :=
  c5_pcm_encoder [0] [0] [(1/2 : ℝ)] 44100 rfl

theorem quant16_bounds (x : ℝ) : -32767 ≤ quant16 x ∧ quant16 x ≤ 32767 := by
  have hc1 : (-1 : ℝ) ≤ clamp1 x := le_max_left _ _
  have hc2 : clamp1 x ≤ 1 := max_le (by norm_num) (min_le_left _ _)
  have h1 : (-32767 : ℝ) ≤ clamp1 x * 32767 := by nlinarith
  have h2 : clamp1 x * 32767 ≤ 32767 := by nlinarith
  rw [quant16, rtrunc]
  split_ifs with h
  · constructor
    · have h0 : (0 : ℤ) ≤ ⌊clamp1 x * 32767⌋ := Int.le_floor.mpr (by exact_mod_cast h)
      omega
    · have hfl : ((⌊clamp1 x * 32767⌋ : ℤ) : ℝ) ≤ 32767 := le_trans (Int.floor_le _) h2
      exact_mod_cast hfl
  · constructor
    · have hle : ((-32767 : ℤ) : ℝ) ≤ clamp1 x * 32767 := by exact_mod_cast h1
      have hc := le_trans hle (Int.le_ceil _)
      exact_mod_cast hc
    · have hc : ⌈clamp1 x * 32767⌉ ≤ (0 : ℤ) := by
        refine Int.ceil_le.mpr ?_
        push_cast
        linarith [not_le.mp h]
      omega

theorem mem_stereoFrames_quant (dataL dataR : List ℝ) (v : ℤ)
    (hv : v ∈ stereoFrames dataL dataR) : ∃ x, v = quant16 x := by
  rw [stereoFrames, foldl_append_blocks, List.nil_append] at hv
  rcases List.mem_flatMap.mp hv with ⟨i, hi, hmem⟩
  rcases List.mem_cons.mp hmem with h | h
  · exact ⟨_, h⟩
  · rcases List.mem_cons.mp h with h | h
    · exact ⟨_, h⟩
    · simp at h

theorem mem_monoFrames_quant (data : List ℝ) (v : ℤ)
    (hv : v ∈ monoFrames data) : ∃ x, v = quant16 x := by
  rw [monoFrames, foldl_append_blocks, List.nil_append] at hv
  rcases List.mem_flatMap.mp hv with ⟨i, hi, hmem⟩
  rcases List.mem_cons.mp hmem with h | h
  · exact ⟨_, h⟩
  · simp at h

/-- Claim C10: every 16-bit value either encoder writes lies in
[-32767, 32767]; the most negative code -32768 is never produced, since
clamping to [-1, 1] followed by multiplying by 32767 and truncating toward
zero cannot reach it. -/
theorem c10_pcm_range :
    (∀ (dataL dataR : List ℝ) (sr : ℕ) (w : WavFile),
        writeWavStereo dataL dataR sr = some w →
        ∀ v ∈ w.frames, -32767 ≤ v ∧ v ≤ 32767) ∧
      (∀ (data : List ℝ) (sr : ℕ), ∀ v ∈ (writeWavMono data sr).frames,
        -32767 ≤ v ∧ v ≤ 32767) := by
  constructor
  · intro dataL dataR sr w hw v hv
    rw [writeWavStereo] at hw
    by_cases hl : dataR.length < dataL.length
    · rw [if_pos hl] at hw
      exact absurd hw (by simp)
    · rw [if_neg hl] at hw
      have hw2 : w = ⟨2, 2, sr, stereoFrames dataL dataR⟩ := (Option.some_inj.mp hw).symm
      have hframes : w.frames = stereoFrames dataL dataR := by rw [hw2]
      rw [hframes] at hv
      obtain ⟨x, rfl⟩ := mem_stereoFrames_quant _ _ _ hv
      exact quant16_bounds x
  · intro data sr v hv
    have hframes : (writeWavMono data sr).frames = monoFrames data := rfl
    rw [hframes] at hv
    obtain ⟨x, rfl⟩ := mem_monoFrames_quant _ _ hv
    exact quant16_bounds x

theorem c10_pcm_range_witness :
    (-32767 ≤ quant16 0 ∧ quant16 0 ≤ 32767) ∧
      (-32767 ≤ quant16 (1/2) ∧ quant16 (1/2) ≤ 32767) := by
  constructor
  · refine c10_pcm_range.1 [0] [0] 44100 ⟨2, 2, 44100, stereoFrames [0] [0]⟩ ?_ (quant16 0) ?_
    · rw [writeWavStereo, if_neg (by simp)]
    · show quant16 0 ∈ stereoFrames [0] [0]
      rw [stereoFrames, foldl_append_blocks, List.nil_append]
      refine List.mem_flatMap.mpr ⟨0, by simp, ?_⟩
      simp
  · refine c10_pcm_range.2 [1/2] 44100 (quant16 (1/2)) ?_
    show quant16 (1/2) ∈ monoFrames [1/2]
    rw [monoFrames, foldl_append_blocks, List.nil_append]
    refine List.mem_flatMap.mpr ⟨0, by simp, ?_⟩
    simp
